import Mathlib

/-!
# Ambient Light Sensor driver: embedding and verification

Shallow embedding of `drivers/als/als_sys.c` (the sysfs class with the
illuminance-to-adjustment lookup `als_get_adjustment`) and of
`drivers/acpi/als.c` (the ACPI backend: `_ALI`/`_ALR` evaluation, the mapping
table build, device add/remove).

Conventions.
* A C `int` is an `Int` in the range `INT_MIN .. INT_MAX`; the results of
  `+`, `-`, `*` and of conversions to `int` are reduced with `wrap32` (two's
  complement wrap-around).  `/` is C division: truncating toward zero, and
  without a value for a zero divisor and for `INT_MIN / -1`.
* A pointer to an array is `Option (List _)`: `none` is `NULL`, `some l` is an
  allocated block of `l.length` cells.  A read outside the block is the
  outcome `oob`.
* What the environment decides (ACPI method results, allocation results,
  contents of freshly allocated memory) is an explicit argument.
-/

namespace ALS

/-! ## Machine integers -/

def INT_MIN : Int := -2147483648

def INT_MAX : Int := 2147483647

/-- Value of a C `int` after two's complement wrap-around of the exact result. -/
def wrap32 (v : Int) : Int := (v + 2147483648) % 4294967296 - 2147483648

/-- The value is representable as a C `int`. -/
def int32 (v : Int) : Prop := INT_MIN ≤ v ∧ v ≤ INT_MAX

instance (v : Int) : Decidable (int32 v) := by unfold int32; infer_instance

def EINVAL : Int := 22

def ENODEV : Int := 19

def ENOMEM : Int := 12

def EFAULT : Int := 14

def ERANGE : Int := 34

/-! ## include/linux/als_sys.h -/

/-- Rendering of `struct als_mapping`. -/
structure als_mapping where
  illuminance : Int
  adjustment : Int
  deriving DecidableEq

/-- Rendering of `struct als_device`: `count` and the `mappings` pointer
(`none` is `NULL`).  The embedded `struct device` and `ops` are carried by the
registration functions, not by the lookup. -/
structure als_device where
  count : Int
  mappings : Option (List als_mapping)
  deriving DecidableEq

/-! ## drivers/als/als_sys.c : als_get_adjustment -/

/-- Outcome of `als_get_adjustment`.
* `ok a`: returns `0` with `*adjustment = a`;
* `einval`: returns `-EINVAL`, `*adjustment` untouched;
* `oob`: a read of `mappings[k]` outside the allocated block;
* `div_zero`: the division has a zero divisor;
* `div_overflow`: the division is `INT_MIN / -1`. -/
inductive adj_result where
  | ok (adjustment : Int)
  | einval
  | oob
  | div_zero
  | div_overflow
  deriving DecidableEq

/-- The read `mappings[k]` for a C `int` index `k`. -/
def read_mapping (ms : List als_mapping) (k : Int) : Option als_mapping :=
  if 0 ≤ k then ms[k.toNat]? else none

/-- The assignment
`*adjustment = ((adj_high - adj_low) * (illuminance - lux_low)) / (lux_high - lux_low) + adj_low`
in `int` arithmetic. -/
def bracket_adjustment (adj_low lux_low adj_high lux_high illuminance : Int) : adj_result :=
  let num := wrap32 (wrap32 (adj_high - adj_low) * wrap32 (illuminance - lux_low))
  let den := wrap32 (lux_high - lux_low)
  if den = 0 then adj_result.div_zero
  else if num = INT_MIN ∧ den = -1 then adj_result.div_overflow
  else adj_result.ok (wrap32 (Int.tdiv num den + adj_low))

/-- The loop `for (i = 0; i < als->count; i++)` of `als_get_adjustment`, entered
at index `i` with `n = count - i` iterations left; falling out of the loop is
the final `return -EINVAL`. -/
def als_scan (ms : List als_mapping) (illuminance : Int) : Nat → Nat → adj_result
  | 0, _ => adj_result.einval
  | n + 1, i =>
    match read_mapping ms i with
    | none => adj_result.oob
    | some cur =>
      if illuminance = cur.illuminance then adj_result.ok cur.adjustment
      else if illuminance > cur.illuminance then als_scan ms illuminance n (i + 1)
      else
        match read_mapping ms ((i : Int) - 1) with
        | none => adj_result.oob
        | some prev =>
          bracket_adjustment prev.adjustment prev.illuminance cur.adjustment cur.illuminance
            illuminance

/-- The clamping statement of `als_get_adjustment`: the value of `illuminance`
when the loop is entered (`none`: a read outside the block). -/
def als_clamp (ms : List als_mapping) (count : Int) (illuminance : Int) : Option Int :=
  match read_mapping ms (count - 1) with
  | none => none
  | some last =>
    if illuminance = -1 ∨ illuminance > last.illuminance then some last.illuminance
    else
      match read_mapping ms 0 with
      | none => none
      | some first =>
        if illuminance < first.illuminance then some first.illuminance
        else some illuminance

/-- Rendering of `als_get_adjustment(als, illuminance, &adjustment)`. -/
def als_get_adjustment (als : als_device) (illuminance : Int) : adj_result :=
  match als.mappings with
  | none => adj_result.einval
  | some ms =>
    match als_clamp ms als.count illuminance with
    | none => adj_result.oob
    | some x => als_scan ms x als.count.toNat 0

/-- The device whose `mappings` block holds exactly the entries of `ms` and
whose `count` is their number. -/
def table_device (ms : List als_mapping) : als_device :=
  { count := ms.length, mappings := some ms }

/-- Strictly ascending illuminance values. -/
def ascending (ms : List als_mapping) : Prop :=
  List.Pairwise (fun a b => a.illuminance < b.illuminance) ms

instance (ms : List als_mapping) : Decidable (ascending ms) := by
  unfold ascending; infer_instance

/-! ## drivers/acpi/als.c : ACPI objects and the environment -/

/-- Rendering of `union acpi_object`, as far as the driver inspects it:
`ACPI_TYPE_INTEGER` with its 64-bit value, `ACPI_TYPE_PACKAGE` with its
elements (`package.count` is their number), and every other type. -/
inductive acpi_object where
  | integer (value : Nat)
  | package (elements : List acpi_object)
  | other

/-- What `acpi_evaluate_object` hands back: a failure status, or success with
`buffer.pointer` (`none` is `NULL`). -/
inductive acpi_eval where
  | failure
  | success (pointer : Option acpi_object)

/-- Rendering of `struct acpi_als` (the scalar fields and the mapping block). -/
structure acpi_als where
  illuminance : Int
  chromaticity : Int
  temperature : Int
  polling : Int
  count : Int
  mappings : Option (List als_mapping)
  deriving DecidableEq

def ALS_INVALID_VALUE_LOW : Int := 0

def ALS_INVALID_VALUE_HIGH : Int := -1

def ACPI_ALS_NOTIFY_ILLUMINANCE : Nat := 0x80

def ACPI_ALS_NOTIFY_COLOR_TEMP : Nat := 0x81

def ACPI_ALS_NOTIFY_RESPONSE : Nat := 0x82

/-- Rendering of `acpi_als_get_illuminance`; `ali` is what evaluating `_ALI`
gives (`none`: `ACPI_FAILURE(status)`).  The 64-bit value is stored in an
`int`. -/
def acpi_als_get_illuminance (als : acpi_als) (ali : Option Nat) : Int × acpi_als :=
  match ali with
  | none => (-ENODEV, { als with illuminance := ALS_INVALID_VALUE_LOW })
  | some illuminance => (0, { als with illuminance := wrap32 illuminance })

/-- Rendering of `acpi_als_get_color_chromaticity` (`_ALC`). -/
def acpi_als_get_color_chromaticity (als : acpi_als) (alc : Option Nat) : Int × acpi_als :=
  match alc with
  | none => (-ENODEV, als)
  | some chromaticity => (0, { als with chromaticity := wrap32 chromaticity })

/-- Rendering of `acpi_als_get_color_temperature` (`_ALT`). -/
def acpi_als_get_color_temperature (als : acpi_als) (alt : Option Nat) : Int × acpi_als :=
  match alt with
  | none => (-ENODEV, als)
  | some temperature => (0, { als with temperature := wrap32 temperature })

/-- The block returned by `kmalloc(sizeof(struct als_mapping) * count)`: `count`
cells, cell `k` holding whatever `fresh k` the allocator left there. -/
def kmalloc_block (fresh : Nat → als_mapping) (count : Nat) : List als_mapping :=
  (List.range count).map fresh

/-- The loop `for (i = 0, j = 0; i < als->count; i++)` of `acpi_als_get_mappings`
over the remaining elements of the `_ALR` package: an element that is a package
of exactly two integers is stored in `mappings[j]` (element 0 is the adjustment,
element 1 the illuminance) and `j` advances; any other element is skipped. -/
def als_fill : List acpi_object → List als_mapping → Nat → List als_mapping
  | [], ms, _ => ms
  | acpi_object.package [acpi_object.integer adj, acpi_object.integer lux] :: es, ms, j =>
    als_fill es (ms.set j { illuminance := wrap32 lux, adjustment := wrap32 adj }) (j + 1)
  | _ :: es, ms, j => als_fill es ms j

/-- Rendering of `acpi_als_get_mappings`.  `alr` is the outcome of evaluating
`_ALR`; `kmalloc` is the outcome of the allocation (`none`: it fails, `some fresh`:
it succeeds and the block has contents `fresh`).  The package count is taken to
fit an `int`. -/
def acpi_als_get_mappings (als : acpi_als) (alr : acpi_eval)
    (kmalloc : Option (Nat → als_mapping)) : Int × acpi_als :=
  let als := { als with mappings := none }
  match alr with
  | acpi_eval.failure => (-ENODEV, als)
  | acpi_eval.success (some (acpi_object.package elements)) =>
    let als := { als with count := (elements.length : Int) }
    if als.count = 0 then (0, als)
    else
      match kmalloc with
      | none => (-ENOMEM, als)
      | some fresh =>
        (0, { als with
                mappings := some (als_fill elements (kmalloc_block fresh elements.length) 0) })
  | acpi_eval.success _ => (-EFAULT, als)

/-- Rendering of the `get_illuminance` callback: the result code, the value
written to `*illuminance` (`none`: not written), and the sensor afterwards. -/
def get_illuminance (als : acpi_als) (ali : Option Nat) : Int × Option Int × acpi_als :=
  let r := acpi_als_get_illuminance als ali
  if r.1 = 0 then (r.1, some r.2.illuminance, r.2) else (r.1, none, r.2)

/-- Rendering of the `update_mappings` callback.  On failure the class device
keeps its old `mappings` pointer and `count` (the block it points to has been
released by `acpi_als_get_mappings` by then). -/
def update_mappings (als_sys : als_device) (als : acpi_als) (alr : acpi_eval)
    (kmalloc : Option (Nat → als_mapping)) : Int × als_device × acpi_als :=
  let r := acpi_als_get_mappings als alr kmalloc
  if r.1 ≠ 0 then (r.1, als_sys, r.2)
  else (0, { als_sys with mappings := r.2.mappings, count := r.2.count }, r.2)

/-! ## drivers/als/als_sys.c : sysfs attributes and registration -/

/-- The test of `adjustment_show` for an invalid reading:
`illuminance < 0 && illuminance != -1`. -/
def illuminance_invalid (illuminance : Int) : Bool :=
  decide (illuminance < 0) && decide (illuminance ≠ -1)

/-- Rendering of `illuminance_show`, given what `ops->get_illuminance` returned
(result code, value written): the text put in `buf`, or the error code. -/
def illuminance_show (get : Int × Option Int) : Except Int String :=
  if get.1 ≠ 0 then Except.error get.1
  else
    let illuminance := get.2.getD 0
    if illuminance = 0 then Except.ok "0\n"
    else if illuminance = -1 then Except.ok "-1\n"
    else if illuminance < -1 then Except.error (-ERANGE)
    else Except.ok (toString illuminance ++ "\n")

/-- What `adjustment_show` does. -/
inductive adjustment_shown where
  | error (code : Int)
  | invalid
  | fault (r : adj_result)
  | percent (adjustment : Int)
  deriving DecidableEq

/-- Rendering of `adjustment_show`: `invalid` is the text
"Current illuminance invalid", `percent a` the text "a%", `error c` the return of
an error code, `fault r` a lookup that did not return. -/
def adjustment_show (als : als_device) (get : Int × Option Int) : adjustment_shown :=
  if get.1 ≠ 0 then adjustment_shown.error get.1
  else
    let illuminance := get.2.getD 0
    if illuminance_invalid illuminance then adjustment_shown.invalid
    else
      match als_get_adjustment als illuminance with
      | adj_result.ok adjustment => adjustment_shown.percent adjustment
      | adj_result.einval => adjustment_shown.error (-EINVAL)
      | r => adjustment_shown.fault r

/-- Rendering of `als_device_register`.  `ops`, `has_get`, `name` say whether
`ops`, `ops->get_illuminance` and `name` are non-`NULL`; `update` is
`ops->update_mappings` (acting on the class device and the private data);
`kzalloc` says whether the allocation succeeds; `device_register` is the
result of `device_register`.  The result is the class device or the error
code of `ERR_PTR`, with the private data afterwards. -/
def als_device_register {σ : Type} (ops has_get name : Bool)
    (update : Option (als_device → σ → Int × als_device × σ)) (devdata : σ)
    (kzalloc : Bool) (device_register : Int) : Except Int als_device × σ :=
  if !ops || !has_get || !name then (Except.error (-EINVAL), devdata)
  else if !kzalloc then (Except.error (-ENOMEM), devdata)
  else
    let als : als_device := { count := 0, mappings := none }
    if device_register ≠ 0 then (Except.error device_register, devdata)
    else
      match update with
      | none => (Except.ok als, devdata)
      | some f =>
        let r := f als devdata
        if r.1 ≠ 0 then (Except.error r.1, r.2.2) else (Except.ok r.2.1, r.2.2)

/-! ## drivers/acpi/als.c : driver model -/

/-- One bound ACPI device: the `acpi_device`, the number printed in its class
device name `acpi_als%d`, its `struct acpi_als` and its class device. -/
structure als_sensor where
  device : Nat
  name : Int
  als : acpi_als
  als_sys : als_device
  deriving DecidableEq

/-- Rendering of `acpi_als_notify` for a bound sensor: the sensor afterwards and
the illuminance carried by the emitted events. -/
def acpi_als_notify (s : als_sensor) (event : Nat) (ali alt alc : Option Nat)
    (alr : acpi_eval) (kmalloc : Option (Nat → als_mapping)) : als_sensor × Int :=
  let s :=
    if event = ACPI_ALS_NOTIFY_ILLUMINANCE then
      { s with als := (acpi_als_get_illuminance s.als ali).2 }
    else if event = ACPI_ALS_NOTIFY_COLOR_TEMP then
      { s with als := (acpi_als_get_color_chromaticity
                        (acpi_als_get_color_temperature s.als alt).2 alc).2 }
    else if event = ACPI_ALS_NOTIFY_RESPONSE then
      let r := update_mappings s.als_sys s.als alr kmalloc
      { s with als_sys := r.2.1, als := r.2.2 }
    else s
  (s, s.als.illuminance)

/-! ## Vocabulary of the statements -/

/-- Value of `illuminance` after the clamping statement, in terms of the first
and the last illuminance of the table. -/
def clamped (first last x : Int) : Int :=
  if x = -1 ∨ x > last then last else if x < first then first else x

/-- A well-formed raw entry in the words of the specification: a sub-package of
exactly two integers, read as (adjustment, illuminance). -/
def well_formed_entry : acpi_object → Option als_mapping
  | acpi_object.package [acpi_object.integer adj, acpi_object.integer lux] =>
    some { illuminance := wrap32 lux, adjustment := wrap32 adj }
  | _ => none

/-- The well-formed raw entries of a package, in their original order. -/
def well_formed_entries (es : List acpi_object) : List als_mapping :=
  es.filterMap well_formed_entry

/-- The table of the specification's scenario. -/
def scenario_table : List als_mapping := [⟨10, 0⟩, ⟨100, 50⟩, ⟨1000, 100⟩]

/-- An ascending table whose first illuminance is the sentinel `-1`. -/
def sentinel_entry_table : List als_mapping := [⟨-1, 5⟩, ⟨10, 7⟩]

/-- A table whose last illuminance lies below its first. -/
def unsorted_table : List als_mapping := [⟨100, 1⟩, ⟨10, 2⟩]

/-- A table whose first illuminance does not exceed its last, unordered in
between. -/
def zigzag_table : List als_mapping := [⟨0, 0⟩, ⟨50, 10⟩, ⟨20, 20⟩, ⟨100, 30⟩]

/-- An ascending table on which the product of the bracket computation exceeds
32 bits. -/
def overflow_table : List als_mapping := [⟨0, 0⟩, ⟨100000000, 100⟩]

/-- An ascending table with `-1` strictly between its first two illuminances. -/
def sentinel_between_table : List als_mapping := [⟨-5, 0⟩, ⟨10, 50⟩, ⟨20, 100⟩]

/-- The ascending table `(INT_MIN, 0), (INT_MAX, 1)`. -/
def extreme_table : List als_mapping := [⟨-2147483648, 0⟩, ⟨2147483647, 1⟩]

/-- An ascending table with a descending adjustment, on which truncation and
flooring differ. -/
def descending_adjustment_table : List als_mapping := [⟨0, 10⟩, ⟨3, 0⟩]

/-- The elements of the `_ALR` package `{ {0, 10}, 7 }`: one well-formed entry
and one integer. -/
def raw_mixed : List acpi_object :=
  [acpi_object.package [acpi_object.integer 0, acpi_object.integer 10],
   acpi_object.integer 7]

/-- The elements of the `_ALR` package `{ 7 }`: no well-formed entry. -/
def raw_malformed : List acpi_object := [acpi_object.integer 7]

/-- A sensor whose cached illuminance is the valid reading `200`. -/
def stale_sensor : acpi_als :=
  { illuminance := 200, chromaticity := 0, temperature := 0, polling := 0,
    count := 0, mappings := none }

theorem read_mapping_nat (ms : List als_mapping) (i : Nat) :
    read_mapping ms (i : Int) = ms[i]? := by
  simp [read_mapping]

theorem read_mapping_pred (ms : List als_mapping) (i : Nat) (h : 0 < i) :
    read_mapping ms ((i : Int) - 1) = ms[i - 1]? := by
  have h1 : ((i : Int) - 1) = ((i - 1 : Nat) : Int) := by omega
  rw [h1, read_mapping_nat]

theorem read_mapping_neg (ms : List als_mapping) (k : Int) (h : k < 0) :
    read_mapping ms k = none := by
  simp [read_mapping]; omega

/-- Invariant of the scan loop.  When the loop is at index `i`, the entry before
`i` (if any) lies strictly below the searched value, the first entry does not
lie above it and the last entry does not lie below it, then the loop ends at
some index `j`: with an exact match, or with the bracket computation on the
entries `j - 1` and `j`, `0 < j`, which enclose the searched value strictly. -/
theorem als_scan_spec (ms : List als_mapping) (x : Int) (last : als_mapping)
    (hlast : ms[ms.length - 1]? = some last) (hx : x ≤ last.illuminance) :
    ∀ (n i : Nat), i + n = ms.length →
      (i = 0 → ∃ first, ms[0]? = some first ∧ first.illuminance ≤ x) →
      (0 < i → ∃ p, ms[i - 1]? = some p ∧ p.illuminance < x) →
      ∃ j cur, ms[j]? = some cur ∧
        ((x = cur.illuminance ∧ als_scan ms x n i = adj_result.ok cur.adjustment) ∨
         (∃ prev, 0 < j ∧ ms[j - 1]? = some prev ∧ prev.illuminance < x ∧
            x < cur.illuminance ∧
            als_scan ms x n i =
              bracket_adjustment prev.adjustment prev.illuminance cur.adjustment
                cur.illuminance x)) := by
  intro n
  induction n with
  | zero =>
    intro i hi h0 hpos
    exfalso
    rcases Nat.eq_zero_or_pos i with hz | hp
    · subst hz
      have hlen : ms.length = 0 := by omega
      have hnil : ms = [] := List.length_eq_zero.mp hlen
      subst hnil
      simp at hlast
    · obtain ⟨p, hp1, hp2⟩ := hpos hp
      have hidx : i - 1 = ms.length - 1 := by omega
      rw [hidx, hlast] at hp1
      cases hp1
      omega
  | succ n ih =>
    intro i hi h0 hpos
    have hlt : i < ms.length := by omega
    have hcur : ms[i]? = some ms[i] := List.getElem?_eq_getElem hlt
    by_cases heq : x = ms[i].illuminance
    · refine ⟨i, ms[i], hcur, Or.inl ⟨heq, ?_⟩⟩
      simp [als_scan, read_mapping_nat, hcur, heq]
    · by_cases hgt : x > ms[i].illuminance
      · have hrec := ih (i + 1) (by omega) (by intro h; omega)
          (by intro _; exact ⟨ms[i], by simp, hgt⟩)
        obtain ⟨j, cur, hj, hres⟩ := hrec
        refine ⟨j, cur, hj, ?_⟩
        have hstep : als_scan ms x (n + 1) i = als_scan ms x n (i + 1) := by
          simp [als_scan, read_mapping_nat, hcur, heq, hgt]
        rw [hstep]
        exact hres
      · have hipos : 0 < i := by
          rcases Nat.eq_zero_or_pos i with hz | hp
          · exfalso
            obtain ⟨first, hf1, hf2⟩ := h0 hz
            subst hz
            rw [hcur] at hf1
            cases hf1
            omega
          · exact hp
        obtain ⟨p, hp1, hp2⟩ := hpos hipos
        refine ⟨i, ms[i], hcur, Or.inr ⟨p, hipos, hp1, hp2, by omega, ?_⟩⟩
        simp [als_scan, read_mapping_nat, read_mapping_pred ms i hipos, hcur, hp1, heq, hgt]

/-! ## The clamping statement -/

theorem clamped_bounds (first last x : Int) (h : first ≤ last) :
    first ≤ clamped first last x ∧ clamped first last x ≤ last := by
  unfold clamped
  split_ifs <;> omega

theorem als_clamp_eq (ms : List als_mapping) (first last : als_mapping)
    (hf : ms[0]? = some first) (hl : ms[ms.length - 1]? = some last) (x : Int) :
    als_clamp ms ms.length x = some (clamped first.illuminance last.illuminance x) := by
  have hpos : 0 < ms.length := by
    rcases Nat.eq_zero_or_pos ms.length with hz | hp
    · have hnil : ms = [] := List.length_eq_zero.mp hz
      subst hnil
      simp at hf
    · exact hp
  have h0 : read_mapping ms 0 = some first := by
    have := read_mapping_nat ms 0
    simpa [hf] using this
  have h1 : read_mapping ms ((ms.length : Int) - 1) = some last := by
    rw [read_mapping_pred ms ms.length hpos, hl]
  unfold als_clamp clamped
  rw [h1]
  simp only [h0]
  split_ifs <;> rfl

theorem als_get_adjustment_table (ms : List als_mapping) (first last : als_mapping)
    (hf : ms[0]? = some first) (hl : ms[ms.length - 1]? = some last) (x : Int) :
    als_get_adjustment (table_device ms) x =
      als_scan ms (clamped first.illuminance last.illuminance x) ms.length 0 := by
  simp [als_get_adjustment, table_device, als_clamp_eq ms first last hf hl x]

/-- Outcome of the lookup on a table whose first illuminance does not exceed its
last one: an exact match at some entry, or the bracket computation on two
adjacent entries that enclose the clamped value strictly. -/
theorem als_get_adjustment_spec (ms : List als_mapping) (first last : als_mapping)
    (hf : ms[0]? = some first) (hl : ms[ms.length - 1]? = some last)
    (hfl : first.illuminance ≤ last.illuminance) (x : Int) :
    ∃ j cur, ms[j]? = some cur ∧
      ((clamped first.illuminance last.illuminance x = cur.illuminance ∧
          als_get_adjustment (table_device ms) x = adj_result.ok cur.adjustment) ∨
       (∃ prev, 0 < j ∧ ms[j - 1]? = some prev ∧
          prev.illuminance < clamped first.illuminance last.illuminance x ∧
          clamped first.illuminance last.illuminance x < cur.illuminance ∧
          als_get_adjustment (table_device ms) x =
            bracket_adjustment prev.adjustment prev.illuminance cur.adjustment
              cur.illuminance (clamped first.illuminance last.illuminance x))) := by
  rw [als_get_adjustment_table ms first last hf hl x]
  have hb := clamped_bounds first.illuminance last.illuminance x hfl
  exact als_scan_spec ms _ last hl hb.2 ms.length 0 (by omega)
    (fun _ => ⟨first, hf, hb.1⟩) (fun h => absurd h (by omega))

/-! ## Strictly ascending tables -/

theorem ascending_lt (ms : List als_mapping) (h : ascending ms) (i j : Nat)
    (a b : als_mapping) (ha : ms[i]? = some a) (hb : ms[j]? = some b) (hij : i < j) :
    a.illuminance < b.illuminance := by
  obtain ⟨hi, rfl⟩ := List.getElem?_eq_some_iff.mp ha
  obtain ⟨hj, rfl⟩ := List.getElem?_eq_some_iff.mp hb
  exact (List.pairwise_iff_getElem.mp h) i j hi hj hij

theorem ascending_idx_lt (ms : List als_mapping) (h : ascending ms) (i j : Nat)
    (a b : als_mapping) (ha : ms[i]? = some a) (hb : ms[j]? = some b)
    (hab : a.illuminance < b.illuminance) : i < j := by
  rcases Nat.lt_trichotomy i j with hlt | heq | hgt
  · exact hlt
  · subst heq
    rw [ha] at hb
    cases hb
    omega
  · have := ascending_lt ms h j i b a hb ha hgt
    omega

theorem ascending_idx_eq (ms : List als_mapping) (h : ascending ms) (i j : Nat)
    (a b : als_mapping) (ha : ms[i]? = some a) (hb : ms[j]? = some b)
    (hab : a.illuminance = b.illuminance) : i = j := by
  rcases Nat.lt_trichotomy i j with hlt | heq | hgt
  · have := ascending_lt ms h i j a b ha hb hlt
    omega
  · exact heq
  · have := ascending_lt ms h j i b a hb ha hgt
    omega

theorem ascending_le (ms : List als_mapping) (h : ascending ms) (i j : Nat)
    (a b : als_mapping) (ha : ms[i]? = some a) (hb : ms[j]? = some b) (hij : i ≤ j) :
    a.illuminance ≤ b.illuminance := by
  rcases Nat.lt_or_ge i j with hlt | hge
  · exact le_of_lt (ascending_lt ms h i j a b ha hb hlt)
  · have : i = j := by omega
    subst this
    rw [ha] at hb
    cases hb
    exact le_refl _

/-- On a strictly ascending table, a clamped value that is the illuminance of
entry `k` yields the adjustment of entry `k`. -/
theorem lookup_exact (ms : List als_mapping) (hasc : ascending ms)
    (first last : als_mapping) (hf : ms[0]? = some first)
    (hl : ms[ms.length - 1]? = some last) (x : Int) (k : Nat) (e : als_mapping)
    (hk : ms[k]? = some e)
    (hx : clamped first.illuminance last.illuminance x = e.illuminance) :
    als_get_adjustment (table_device ms) x = adj_result.ok e.adjustment := by
  have hfl : first.illuminance ≤ last.illuminance :=
    ascending_le ms hasc 0 (ms.length - 1) first last hf hl (by omega)
  obtain ⟨j, cur, hj, hres⟩ := als_get_adjustment_spec ms first last hf hl hfl x
  rcases hres with ⟨h1, h2⟩ | ⟨prev, hjpos, hprev, hlo, hhi, _⟩
  · have hjk : j = k := ascending_idx_eq ms hasc j k cur e hj hk (by omega)
    subst hjk
    rw [hj] at hk
    cases hk
    exact h2
  · exfalso
    have h1 : j - 1 < k := ascending_idx_lt ms hasc (j - 1) k prev e hprev hk (by omega)
    have h2 : k < j := ascending_idx_lt ms hasc k j e cur hk hj (by omega)
    omega

/-- On a strictly ascending table, a clamped value strictly between the
illuminances of the adjacent entries `k` and `k + 1` yields the bracket
computation on exactly these two entries. -/
theorem lookup_bracket (ms : List als_mapping) (hasc : ascending ms)
    (first last : als_mapping) (hf : ms[0]? = some first)
    (hl : ms[ms.length - 1]? = some last) (x : Int) (k : Nat) (lo hi : als_mapping)
    (hlo : ms[k]? = some lo) (hhi : ms[k + 1]? = some hi)
    (h1 : lo.illuminance < clamped first.illuminance last.illuminance x)
    (h2 : clamped first.illuminance last.illuminance x < hi.illuminance) :
    als_get_adjustment (table_device ms) x =
      bracket_adjustment lo.adjustment lo.illuminance hi.adjustment hi.illuminance
        (clamped first.illuminance last.illuminance x) := by
  have hfl : first.illuminance ≤ last.illuminance :=
    ascending_le ms hasc 0 (ms.length - 1) first last hf hl (by omega)
  obtain ⟨j, cur, hj, hres⟩ := als_get_adjustment_spec ms first last hf hl hfl x
  rcases hres with ⟨e1, _⟩ | ⟨prev, hjpos, hprev, hplo, hphi, hr⟩
  · exfalso
    have a1 : k < j := ascending_idx_lt ms hasc k j lo cur hlo hj (by omega)
    have a2 : j < k + 1 := ascending_idx_lt ms hasc j (k + 1) cur hi hj hhi (by omega)
    omega
  · have a1 : k < j := ascending_idx_lt ms hasc k j lo cur hlo hj (by omega)
    have a2 : j - 1 < k + 1 :=
      ascending_idx_lt ms hasc (j - 1) (k + 1) prev hi hprev hhi (by omega)
    have hjk : j = k + 1 := by omega
    subst hjk
    rw [hj] at hhi
    cases hhi
    simp only [Nat.add_sub_cancel] at hprev
    rw [hprev] at hlo
    cases hlo
    exact hr

/-- The first and the last cell of a non-empty block. -/
theorem first_last_exist (ms : List als_mapping) (h : ms ≠ []) :
    ∃ first last, ms[0]? = some first ∧ ms[ms.length - 1]? = some last := by
  have hpos : 0 < ms.length := List.length_pos.mpr h
  exact ⟨ms[0], ms[ms.length - 1], List.getElem?_eq_getElem hpos,
    List.getElem?_eq_getElem (by omega)⟩

theorem als_scan_head_match (ms : List als_mapping) (first : als_mapping)
    (hf : ms[0]? = some first) (n : Nat) :
    als_scan ms first.illuminance (n + 1) 0 = adj_result.ok first.adjustment := by
  have hr0 : read_mapping ms ((0 : Nat) : Int) = some first := by
    rw [read_mapping_nat, hf]
  unfold als_scan
  rw [hr0]
  simp

theorem als_scan_head_below (ms : List als_mapping) (first : als_mapping)
    (hf : ms[0]? = some first) (x : Int) (hx : x < first.illuminance) (n : Nat) :
    als_scan ms x (n + 1) 0 = adj_result.oob := by
  have hr0 : read_mapping ms ((0 : Nat) : Int) = some first := by
    rw [read_mapping_nat, hf]
  have hrm : read_mapping ms (((0 : Nat) : Int) - 1) = none :=
    read_mapping_neg ms _ (by omega)
  have hne2 : ¬ x = first.illuminance := by omega
  have hngt : ¬ x > first.illuminance := by omega
  unfold als_scan
  rw [hr0]
  simp only [hne2, hngt, if_false]
  rw [hrm]

theorem head_getLast_getElem (ms : List als_mapping) (first last : als_mapping)
    (hf : ms.head? = some first) (hl : ms.getLast? = some last) :
    ms[0]? = some first ∧ ms[ms.length - 1]? = some last := by
  constructor
  · rw [← hf, List.head?_eq_getElem?]
  · rw [← hl, List.getLast?_eq_getElem?]

/-! ## Claims on the lookup -/

/-- The lookups of the specification's scenario: `50` is interpolated to `22`,
`5` is clamped to the first entry, `-1` yields the last adjustment, `100` is
an exact match. -/
theorem scenario_lookups :
    als_get_adjustment (table_device scenario_table) 50 = adj_result.ok 22 ∧
    als_get_adjustment (table_device scenario_table) 5 = adj_result.ok 0 ∧
    als_get_adjustment (table_device scenario_table) (-1) = adj_result.ok 100 ∧
    als_get_adjustment (table_device scenario_table) 100 = adj_result.ok 50 := by
  decide

/-- C1 (as stated) fails: in the strictly ascending table `(-1, 5), (10, 7)` the
lookup at the illuminance `-1` of the first entry returns the adjustment `7` of
the last entry, not the adjustment `5` of the entry itself. -/
theorem exact_entry_fails_at_sentinel :
    ascending sentinel_entry_table ∧
    (⟨-1, 5⟩ : als_mapping) ∈ sentinel_entry_table ∧
    als_get_adjustment (table_device sentinel_entry_table)
      (⟨-1, 5⟩ : als_mapping).illuminance = adj_result.ok 7 ∧
    (⟨-1, 5⟩ : als_mapping).adjustment ≠ 7 := by
  decide

/-- C1 (amended): for every strictly ascending table and every entry `e` of it
whose illuminance is not the saturation sentinel `-1`, or which is the last
entry, the lookup at `e.illuminance` succeeds and returns `e.adjustment`. -/
theorem exact_entry_roundtrip (ms : List als_mapping) (hasc : ascending ms)
    (e : als_mapping) (he : e ∈ ms)
    (hs : e.illuminance ≠ -1 ∨ ms.getLast? = some e) :
    als_get_adjustment (table_device ms) e.illuminance = adj_result.ok e.adjustment := by
  obtain ⟨k, hk⟩ := List.getElem?_of_mem he
  have hne : ms ≠ [] := List.ne_nil_of_mem he
  obtain ⟨first, last, hf, hl⟩ := first_last_exist ms hne
  have hklt : k < ms.length := (List.getElem?_eq_some_iff.mp hk).1
  have h1 := ascending_le ms hasc 0 k first e hf hk (by omega)
  have h2 := ascending_le ms hasc k (ms.length - 1) e last hk hl (by omega)
  refine lookup_exact ms hasc first last hf hl e.illuminance k e hk ?_
  unfold clamped
  rcases hs with hs | hs
  · split_ifs <;> omega
  · rw [List.getLast?_eq_getElem?, hl] at hs
    cases hs
    split_ifs <;> omega

/-- C1 (amended) on the scenario table: the lookup at `100` returns `50`. -/
theorem exact_entry_roundtrip_witness :
    ascending scenario_table ∧ (⟨100, 50⟩ : als_mapping) ∈ scenario_table ∧
    als_get_adjustment (table_device scenario_table) 100 = adj_result.ok 50 :=
  ⟨by decide, by decide,
    exact_entry_roundtrip scenario_table (by decide) ⟨100, 50⟩ (by decide)
      (Or.inl (by decide))⟩

/-- C3 (as stated) fails: in the table `(10, 0), (100, 50), (1000, 100)` the
illuminance `-1` lies below the first entry, and the lookup returns the
adjustment `100` of the last entry, not the adjustment `0` of the first. -/
theorem clamp_below_fails_at_sentinel :
    scenario_table ≠ [] ∧ ascending scenario_table ∧
    scenario_table.head? = some ⟨10, 0⟩ ∧ (-1 : Int) < 10 ∧
    als_get_adjustment (table_device scenario_table) (-1) = adj_result.ok 100 := by
  decide

/-- C3 (amended): for every non-empty strictly ascending table, the lookup
returns the first entry's adjustment for every illuminance below the first
entry's illuminance other than the saturation sentinel `-1`, and the last
entry's adjustment for every illuminance above the last entry's
illuminance. -/
theorem clamp_outside_range (ms : List als_mapping) (hasc : ascending ms)
    (first last : als_mapping) (hf : ms.head? = some first)
    (hl : ms.getLast? = some last) :
    (∀ x : Int, x < first.illuminance → x ≠ -1 →
      als_get_adjustment (table_device ms) x = adj_result.ok first.adjustment) ∧
    (∀ x : Int, x > last.illuminance →
      als_get_adjustment (table_device ms) x = adj_result.ok last.adjustment) := by
  obtain ⟨hf0, hl0⟩ := head_getLast_getElem ms first last hf hl
  have hfl : first.illuminance ≤ last.illuminance :=
    ascending_le ms hasc 0 (ms.length - 1) first last hf0 hl0 (by omega)
  constructor
  · intro x hx hx1
    refine lookup_exact ms hasc first last hf0 hl0 x 0 first hf0 ?_
    unfold clamped
    split_ifs <;> omega
  · intro x hx
    refine lookup_exact ms hasc first last hf0 hl0 x (ms.length - 1) last hl0 ?_
    unfold clamped
    split_ifs <;> omega

/-- C3 (amended) on the scenario table: `5` yields the first adjustment, `5000`
the last. -/
theorem clamp_outside_range_witness :
    als_get_adjustment (table_device scenario_table) 5 = adj_result.ok 0 ∧
    als_get_adjustment (table_device scenario_table) 5000 = adj_result.ok 100 :=
  ⟨(clamp_outside_range scenario_table (by decide) ⟨10, 0⟩ ⟨1000, 100⟩ rfl rfl).1 5
      (by decide) (by decide),
   (clamp_outside_range scenario_table (by decide) ⟨10, 0⟩ ⟨1000, 100⟩ rfl rfl).2 5000
      (by decide)⟩

/-- C4 (as stated) fails: in the table `(100, 1), (10, 2)` the lookup at `-1`
takes the last illuminance `10`, finds it below entry `0` and reads
`mappings[-1]`, while the lookup at `10` is clamped to the first illuminance
`100` and returns the adjustment `1`. -/
theorem sentinel_differs_from_last_on_unsorted :
    unsorted_table.getLast? = some ⟨10, 2⟩ ∧
    als_get_adjustment (table_device unsorted_table) (-1) = adj_result.oob ∧
    als_get_adjustment (table_device unsorted_table) 10 = adj_result.ok 1 := by
  decide

/-- C4 (amended): on a device without a table (`mappings` is `NULL`) the lookup
fails with `-EINVAL` for the sentinel `-1` as for every other illuminance; on a
non-empty table the lookup at `-1` equals the lookup at the last entry's
illuminance exactly when the first entry's illuminance does not exceed the
last entry's illuminance (as in every ascending table) or the last
illuminance is itself `-1`. -/
theorem sentinel_equals_last :
    (∀ (d : als_device), d.mappings = none → ∀ x : Int,
      als_get_adjustment d (-1) = als_get_adjustment d x) ∧
    (∀ (ms : List als_mapping) (first last : als_mapping),
      ms.head? = some first → ms.getLast? = some last →
      (als_get_adjustment (table_device ms) (-1) =
          als_get_adjustment (table_device ms) last.illuminance ↔
        (first.illuminance ≤ last.illuminance ∨ last.illuminance = -1))) := by
  constructor
  · intro d hd x
    simp [als_get_adjustment, hd]
  · intro ms first last hf hl
    obtain ⟨hf0, hl0⟩ := head_getLast_getElem ms first last hf hl
    rw [als_get_adjustment_table ms first last hf0 hl0,
      als_get_adjustment_table ms first last hf0 hl0]
    have hc1 : clamped first.illuminance last.illuminance (-1) = last.illuminance := by
      simp [clamped]
    rw [hc1]
    constructor
    · intro heq
      by_contra hcon
      have hlt : last.illuminance < first.illuminance := by omega
      have hne : last.illuminance ≠ -1 := by omega
      have hc2 : clamped first.illuminance last.illuminance last.illuminance =
          first.illuminance := by
        unfold clamped
        split_ifs <;> omega
      rw [hc2] at heq
      have hpos : 0 < ms.length := by
        rcases Nat.eq_zero_or_pos ms.length with hz | hp
        · have hnil : ms = [] := List.length_eq_zero.mp hz
          subst hnil
          simp at hf
        · exact hp
      obtain ⟨n, hn⟩ : ∃ n, ms.length = n + 1 := ⟨ms.length - 1, by omega⟩
      rw [hn, als_scan_head_match ms first hf0 n,
        als_scan_head_below ms first hf0 last.illuminance hlt n] at heq
      cases heq
    · intro h
      have hc2 : clamped first.illuminance last.illuminance last.illuminance =
          last.illuminance := by
        unfold clamped
        split_ifs <;> omega
      rw [hc2]

/-- C4 (amended) on the scenario table: the lookups at `-1` and at `1000`
agree. -/
theorem sentinel_equals_last_witness :
    als_get_adjustment (table_device scenario_table) (-1) =
      als_get_adjustment (table_device scenario_table) 1000 :=
  (sentinel_equals_last.2 scenario_table ⟨10, 0⟩ ⟨1000, 100⟩ rfl rfl).mpr
    (Or.inl (by decide))

/-! ## The bracket computation -/

theorem wrap32_of_int32 (v : Int) (h : int32 v) : wrap32 v = v := by
  unfold int32 INT_MIN INT_MAX at h
  unfold wrap32
  omega

theorem tdiv_bounds_nonneg (da dx dl : Int) (hdx : 0 < dx) (hdl : dx < dl) (hda : 0 ≤ da) :
    0 ≤ Int.tdiv (da * dx) dl ∧ Int.tdiv (da * dx) dl ≤ da := by
  have hP : 0 ≤ da * dx := Int.mul_nonneg hda (le_of_lt hdx)
  have hdl0 : 0 < dl := lt_trans hdx hdl
  rw [Int.tdiv_eq_ediv hP (le_of_lt hdl0)]
  constructor
  · exact Int.ediv_nonneg hP (le_of_lt hdl0)
  · apply Int.ediv_le_of_le_mul hdl0
    exact Int.mul_le_mul_of_nonneg_left (le_of_lt hdl) hda

theorem tdiv_bounds_nonpos (da dx dl : Int) (hdx : 0 < dx) (hdl : dx < dl) (hda : da ≤ 0) :
    da ≤ Int.tdiv (da * dx) dl ∧ Int.tdiv (da * dx) dl ≤ 0 := by
  have h := tdiv_bounds_nonneg (-da) dx dl hdx hdl (by omega)
  have e : da * dx = -((-da) * dx) := by ring
  rw [e, Int.neg_tdiv]
  omega

/-- Without overflow the bracket computation yields the exact quotient, which
lies between the two adjustments. -/
theorem bracket_adjustment_exact (a1 l1 a2 l2 x : Int) (h1 : l1 < x) (h2 : x < l2)
    (ha1 : int32 a1) (ha2 : int32 a2) (hdl : int32 (l2 - l1))
    (hP : int32 ((a2 - a1) * (x - l1))) :
    bracket_adjustment a1 l1 a2 l2 x =
      adj_result.ok (Int.tdiv ((a2 - a1) * (x - l1)) (l2 - l1) + a1) ∧
    min a1 a2 ≤ Int.tdiv ((a2 - a1) * (x - l1)) (l2 - l1) + a1 ∧
    Int.tdiv ((a2 - a1) * (x - l1)) (l2 - l1) + a1 ≤ max a1 a2 := by
  have hdx0 : 0 < x - l1 := by omega
  have hdxl : x - l1 < l2 - l1 := by omega
  have hb : min a1 a2 ≤ Int.tdiv ((a2 - a1) * (x - l1)) (l2 - l1) + a1 ∧
      Int.tdiv ((a2 - a1) * (x - l1)) (l2 - l1) + a1 ≤ max a1 a2 := by
    rcases le_total 0 (a2 - a1) with hda | hda
    · have := tdiv_bounds_nonneg (a2 - a1) (x - l1) (l2 - l1) hdx0 hdxl hda
      omega
    · have := tdiv_bounds_nonpos (a2 - a1) (x - l1) (l2 - l1) hdx0 hdxl hda
      omega
  refine ⟨?_, hb⟩
  have hda32 : int32 (a2 - a1) := by
    unfold int32 INT_MIN INT_MAX at *
    rcases le_total 0 (a2 - a1) with hda | hda
    · have : 0 ≤ (a2 - a1) * (x - l1 - 1) := Int.mul_nonneg hda (by omega)
      constructor <;> nlinarith
    · have : 0 ≤ (-(a2 - a1)) * (x - l1 - 1) := Int.mul_nonneg (by omega) (by omega)
      constructor <;> nlinarith
  have hdx32 : int32 (x - l1) := by
    unfold int32 INT_MIN INT_MAX at *
    omega
  have hr32 : int32 (Int.tdiv ((a2 - a1) * (x - l1)) (l2 - l1) + a1) := by
    unfold int32 INT_MIN INT_MAX at *
    omega
  have hden : l2 - l1 ≠ 0 := by omega
  have hden1 : l2 - l1 ≠ -1 := by omega
  unfold bracket_adjustment
  simp only [wrap32_of_int32 _ hda32, wrap32_of_int32 _ hdx32, wrap32_of_int32 _ hP,
    wrap32_of_int32 _ hdl, wrap32_of_int32 _ hr32, hden, hden1, and_false, if_false]

/-- A bracket that encloses the searched value strictly never divides by zero; it
overflows only between the illuminances `INT_MIN` and `INT_MAX`. -/
theorem bracket_adjustment_defined (a1 l1 a2 l2 x : Int) (h1 : l1 < x) (h2 : x < l2)
    (hl1 : int32 l1) (hl2 : int32 l2) :
    (∃ r, bracket_adjustment a1 l1 a2 l2 x = adj_result.ok r) ∨
    (bracket_adjustment a1 l1 a2 l2 x = adj_result.div_overflow ∧ l1 = INT_MIN ∧ l2 = INT_MAX) := by
  have hden : wrap32 (l2 - l1) ≠ 0 := by
    unfold int32 INT_MIN INT_MAX at *
    unfold wrap32
    omega
  unfold bracket_adjustment
  simp only [hden, if_false]
  split_ifs with hov
  · right
    refine ⟨rfl, ?_⟩
    have hd := hov.2
    unfold int32 INT_MIN INT_MAX at *
    unfold wrap32 at hd
    omega
  · left
    exact ⟨_, rfl⟩

/-- On a strictly ascending table, a value other than `-1` strictly between two
adjacent entries is not changed by the clamping statement. -/
theorem clamped_inside (ms : List als_mapping) (hasc : ascending ms)
    (first last : als_mapping) (hf : ms[0]? = some first)
    (hl : ms[ms.length - 1]? = some last) (k : Nat) (lo hi : als_mapping)
    (hlo : ms[k]? = some lo) (hhi : ms[k + 1]? = some hi) (x : Int)
    (hx1 : lo.illuminance < x) (hx2 : x < hi.illuminance) (hxs : x ≠ -1) :
    clamped first.illuminance last.illuminance x = x := by
  have hklt : k + 1 < ms.length := (List.getElem?_eq_some_iff.mp hhi).1
  have h1 := ascending_le ms hasc 0 k first lo hf hlo (by omega)
  have h2 := ascending_le ms hasc (k + 1) (ms.length - 1) hi last hhi hl (by omega)
  unfold clamped
  split_ifs <;> omega

/-- C2 (as stated) fails in two ways.  In the table `(0, 0), (100000000, 100)`
the product `100 * 30000000` wraps around in 32-bit arithmetic and the lookup
at `30000000` returns `-12`, below both adjustments.  In the table
`(-5, 0), (10, 50), (20, 100)` the value `-1` lies strictly between the first
two entries, is taken for the saturation sentinel and yields `100`, above both
adjustments `0` and `50`. -/
theorem interpolation_leaves_range :
    (ascending overflow_table ∧ overflow_table[0]? = some ⟨0, 0⟩ ∧
      overflow_table[1]? = some ⟨100000000, 100⟩ ∧
      (0 : Int) < 30000000 ∧ (30000000 : Int) < 100000000 ∧ int32 30000000 ∧
      als_get_adjustment (table_device overflow_table) 30000000 = adj_result.ok (-12) ∧
      ¬ (min (0 : Int) 100 ≤ -12)) ∧
    (ascending sentinel_between_table ∧ sentinel_between_table[0]? = some ⟨-5, 0⟩ ∧
      sentinel_between_table[1]? = some ⟨10, 50⟩ ∧
      (-5 : Int) < -1 ∧ (-1 : Int) < 10 ∧ int32 (-1) ∧
      als_get_adjustment (table_device sentinel_between_table) (-1) = adj_result.ok 100 ∧
      ¬ ((100 : Int) ≤ max 0 50)) := by
  decide

/-- C2 (amended): for every strictly ascending table, every pair of adjacent
entries `(l1, a1)`, `(l2, a2)` and every illuminance `x` other than the sentinel
`-1` with `l1 < x < l2`, if `l2 - l1` and `(a2 - a1) * (x - l1)` fit a 32-bit
signed integer (so that the program's arithmetic does not wrap around), the
lookup succeeds and returns `r` with `min a1 a2 ≤ r ≤ max a1 a2`. -/
theorem interpolation_between (ms : List als_mapping) (hasc : ascending ms)
    (k : Nat) (lo hi : als_mapping) (hlo : ms[k]? = some lo) (hhi : ms[k + 1]? = some hi)
    (x : Int) (hx1 : lo.illuminance < x) (hx2 : x < hi.illuminance) (hxs : x ≠ -1)
    (ha1 : int32 lo.adjustment) (ha2 : int32 hi.adjustment)
    (hdl : int32 (hi.illuminance - lo.illuminance))
    (hP : int32 ((hi.adjustment - lo.adjustment) * (x - lo.illuminance))) :
    ∃ r, als_get_adjustment (table_device ms) x = adj_result.ok r ∧
      min lo.adjustment hi.adjustment ≤ r ∧ r ≤ max lo.adjustment hi.adjustment := by
  have hne : ms ≠ [] := List.ne_nil_of_mem (List.getElem?_mem hlo)
  obtain ⟨first, last, hf, hl⟩ := first_last_exist ms hne
  have hc := clamped_inside ms hasc first last hf hl k lo hi hlo hhi x hx1 hx2 hxs
  have hb := lookup_bracket ms hasc first last hf hl x k lo hi hlo hhi
    (by rw [hc]; exact hx1) (by rw [hc]; exact hx2)
  rw [hc] at hb
  obtain ⟨he, hmin, hmax⟩ := bracket_adjustment_exact lo.adjustment lo.illuminance
    hi.adjustment hi.illuminance x hx1 hx2 ha1 ha2 hdl hP
  exact ⟨_, hb.trans he, hmin, hmax⟩

/-- C2 (amended) on the scenario table: the lookup at `50` stays between `0` and
`50`. -/
theorem interpolation_between_witness :
    ∃ r, als_get_adjustment (table_device scenario_table) 50 = adj_result.ok r ∧
      min (0 : Int) 50 ≤ r ∧ r ≤ max (0 : Int) 50 :=
  interpolation_between scenario_table (by decide) 0 ⟨10, 0⟩ ⟨100, 50⟩ rfl rfl 50
    (by decide) (by decide) (by decide) (by decide) (by decide) (by decide) (by decide)

/-- C9 (as stated) fails in two ways.  In the table `(0, 0), (100000000, 100)`
at `x = 30000000` the formula has the value `30`, and the lookup returns `-12`:
the product wraps around in 32-bit arithmetic.  In the table
`(INT_MIN, 0), (INT_MAX, 1)` at `x = 0` the lookup returns no value: the
wrapped division is `INT_MIN / -1`. -/
theorem bracket_formula_differs :
    (ascending overflow_table ∧ overflow_table[0]? = some ⟨0, 0⟩ ∧
      overflow_table[0 + 1]? = some ⟨100000000, 100⟩ ∧
      (0 : Int) < 30000000 ∧ (30000000 : Int) < 100000000 ∧ (30000000 : Int) ≠ -1 ∧
      Int.tdiv ((100 - 0) * (30000000 - 0)) (100000000 - 0) + 0 = 30 ∧
      als_get_adjustment (table_device overflow_table) 30000000 = adj_result.ok (-12)) ∧
    (ascending extreme_table ∧ extreme_table[0]? = some ⟨-2147483648, 0⟩ ∧
      extreme_table[0 + 1]? = some ⟨2147483647, 1⟩ ∧
      (-2147483648 : Int) < 0 ∧ (0 : Int) < 2147483647 ∧ (0 : Int) ≠ -1 ∧
      als_get_adjustment (table_device extreme_table) 0 = adj_result.div_overflow) := by
  decide

/-- C9 (amended): for every strictly ascending table, every index `k` and every
illuminance `x` other than `-1` with `lux_k < x < lux_(k+1)`, the lookup selects
the entries `k` and `k + 1` as the bracketing pair and evaluates
`((adj_(k+1) - adj_k) * (x - lux_k)) / (lux_(k+1) - lux_k) + adj_k` in the
program's 32-bit wrapping arithmetic with truncating division (no value is
returned when that division is `INT_MIN / -1`); when the adjustments,
`lux_(k+1) - lux_k` and `(adj_(k+1) - adj_k) * (x - lux_k)` fit a 32-bit signed
integer, the value returned is the exact integer value of the formula, the
division truncating toward zero. -/
theorem bracket_formula (ms : List als_mapping) (hasc : ascending ms)
    (k : Nat) (lo hi : als_mapping) (hlo : ms[k]? = some lo) (hhi : ms[k + 1]? = some hi)
    (x : Int) (hx1 : lo.illuminance < x) (hx2 : x < hi.illuminance) (hxs : x ≠ -1) :
    als_get_adjustment (table_device ms) x =
      bracket_adjustment lo.adjustment lo.illuminance hi.adjustment hi.illuminance x ∧
    (int32 lo.adjustment → int32 hi.adjustment →
      int32 (hi.illuminance - lo.illuminance) →
      int32 ((hi.adjustment - lo.adjustment) * (x - lo.illuminance)) →
      als_get_adjustment (table_device ms) x =
        adj_result.ok
          (Int.tdiv ((hi.adjustment - lo.adjustment) * (x - lo.illuminance))
            (hi.illuminance - lo.illuminance) + lo.adjustment)) := by
  have hne : ms ≠ [] := List.ne_nil_of_mem (List.getElem?_mem hlo)
  obtain ⟨first, last, hf, hl⟩ := first_last_exist ms hne
  have hc := clamped_inside ms hasc first last hf hl k lo hi hlo hhi x hx1 hx2 hxs
  have hb := lookup_bracket ms hasc first last hf hl x k lo hi hlo hhi
    (by rw [hc]; exact hx1) (by rw [hc]; exact hx2)
  rw [hc] at hb
  refine ⟨hb, ?_⟩
  intro ha1 ha2 hdl hP
  exact hb.trans (bracket_adjustment_exact lo.adjustment lo.illuminance
    hi.adjustment hi.illuminance x hx1 hx2 ha1 ha2 hdl hP).1

/-- C9 (amended) on the table `(0, 10), (3, 0)` at `x = 1`: the lookup returns `7`,
the quotient `-10 / 3` truncated to `-3`; flooring would give `6`. -/
theorem bracket_formula_witness :
    als_get_adjustment (table_device descending_adjustment_table) 1 =
        adj_result.ok (Int.tdiv ((0 - 10) * (1 - 0)) (3 - 0) + 10) ∧
    Int.tdiv ((0 - 10) * (1 - 0)) (3 - 0) + 10 = 7 ∧
    ((0 - 10) * (1 - 0) : Int) / (3 - 0) + 10 = 6 :=
  ⟨(bracket_formula descending_adjustment_table (by decide) 0 ⟨0, 10⟩ ⟨3, 0⟩ rfl rfl 1
      (by decide) (by decide) (by decide)).2
      (by decide) (by decide) (by decide) (by decide),
    by decide, by decide⟩

/-- C10 (as stated) fails: the table `(INT_MIN, 0), (INT_MAX, 1)` is non-empty,
its first illuminance does not exceed its last, and at the illuminance `0` the
bracket computation divides `INT_MIN` by `-1`, so no value is returned. -/
theorem lookup_division_overflows :
    extreme_table ≠ [] ∧ extreme_table.head? = some ⟨-2147483648, 0⟩ ∧
    extreme_table.getLast? = some ⟨2147483647, 1⟩ ∧
    (-2147483648 : Int) ≤ 2147483647 ∧ int32 0 ∧
    (∀ m ∈ extreme_table, int32 m.illuminance ∧ int32 m.adjustment) ∧
    als_get_adjustment (table_device extreme_table) 0 = adj_result.div_overflow := by
  decide

/-- C10 (amended): for every non-empty table of 32-bit illuminances whose first
illuminance is `<=` its last (no ordering assumed in between) and for every
input illuminance, the lookup never reads `mappings[-1]` or any other cell
outside the table, never divides by zero and never reaches the final
`return -EINVAL`; it returns a value, except when the bracket computation is
the overflowing division `INT_MIN / -1`, which happens only between two
adjacent entries with the illuminances `INT_MIN` and `INT_MAX`. -/
theorem lookup_total (ms : List als_mapping) (first last : als_mapping)
    (hf : ms.head? = some first) (hl : ms.getLast? = some last)
    (hfl : first.illuminance ≤ last.illuminance)
    (hrange : ∀ m ∈ ms, int32 m.illuminance) (x : Int) :
    als_get_adjustment (table_device ms) x ≠ adj_result.oob ∧
    als_get_adjustment (table_device ms) x ≠ adj_result.div_zero ∧
    als_get_adjustment (table_device ms) x ≠ adj_result.einval ∧
    ((∃ r, als_get_adjustment (table_device ms) x = adj_result.ok r) ∨
     (als_get_adjustment (table_device ms) x = adj_result.div_overflow ∧
      ∃ j prev cur, ms[j]? = some prev ∧ ms[j + 1]? = some cur ∧
        prev.illuminance = INT_MIN ∧ cur.illuminance = INT_MAX)) := by
  obtain ⟨hf0, hl0⟩ := head_getLast_getElem ms first last hf hl
  have key : (∃ r, als_get_adjustment (table_device ms) x = adj_result.ok r) ∨
     (als_get_adjustment (table_device ms) x = adj_result.div_overflow ∧
      ∃ j prev cur, ms[j]? = some prev ∧ ms[j + 1]? = some cur ∧
        prev.illuminance = INT_MIN ∧ cur.illuminance = INT_MAX) := by
    obtain ⟨j, cur, hj, hres⟩ := als_get_adjustment_spec ms first last hf0 hl0 hfl x
    rcases hres with ⟨_, h2⟩ | ⟨prev, hjpos, hprev, hplo, hphi, hr⟩
    · exact Or.inl ⟨_, h2⟩
    · rw [hr]
      rcases bracket_adjustment_defined prev.adjustment prev.illuminance cur.adjustment
          cur.illuminance _ hplo hphi (hrange prev (List.getElem?_mem hprev))
          (hrange cur (List.getElem?_mem hj)) with hok | ⟨hov, hmin, hmax⟩
      · exact Or.inl hok
      · refine Or.inr ⟨hov, j - 1, prev, cur, hprev, ?_, hmin, hmax⟩
        have : j - 1 + 1 = j := by omega
        rw [this]
        exact hj
  refine ⟨?_, ?_, ?_, key⟩ <;>
  · intro hcon
    rcases key with ⟨r, hr⟩ | ⟨hov, _⟩
    · rw [hr] at hcon
      cases hcon
    · rw [hov] at hcon
      cases hcon

/-- C10 (amended) on the table `(0, 0), (50, 10), (20, 20), (100, 30)` at `30`. -/
theorem lookup_total_witness :
    als_get_adjustment (table_device zigzag_table) 30 ≠ adj_result.oob ∧
    als_get_adjustment (table_device zigzag_table) 30 ≠ adj_result.div_zero ∧
    als_get_adjustment (table_device zigzag_table) 30 ≠ adj_result.einval ∧
    ((∃ r, als_get_adjustment (table_device zigzag_table) 30 = adj_result.ok r) ∨
     (als_get_adjustment (table_device zigzag_table) 30 = adj_result.div_overflow ∧
      ∃ j prev cur, zigzag_table[j]? = some prev ∧ zigzag_table[j + 1]? = some cur ∧
        prev.illuminance = INT_MIN ∧ cur.illuminance = INT_MAX)) :=
  lookup_total zigzag_table ⟨0, 0⟩ ⟨100, 30⟩ rfl rfl (by decide) (by decide) 30

/-! ## The mapping table build -/

theorem als_fill_cons (e : acpi_object) (es : List acpi_object) (ms : List als_mapping)
    (j : Nat) :
    als_fill (e :: es) ms j =
      match well_formed_entry e with
      | some m => als_fill es (ms.set j m) (j + 1)
      | none => als_fill es ms j := by
  conv => lhs; unfold als_fill
  unfold well_formed_entry
  split
  · rename_i h; cases h
  · rename_i h
    simp only [List.cons.injEq] at h
    obtain ⟨h1, h2⟩ := h
    subst h1 h2
    rfl
  · rename_i hno h
    simp only [List.cons.injEq] at h
    obtain ⟨h1, h2⟩ := h
    subst h1 h2
    split
    · rename_i heq
      split at heq
      · exact absurd rfl (hno _ _)
      · cases heq
    · rfl

theorem als_fill_eq (es : List acpi_object) :
    ∀ (ms : List als_mapping) (j : Nat),
      j + (well_formed_entries es).length ≤ ms.length →
      als_fill es ms j =
        ms.take j ++ well_formed_entries es ++
          ms.drop (j + (well_formed_entries es).length) := by
  induction es with
  | nil =>
    intro ms j _
    simp [als_fill, well_formed_entries]
  | cons e es ih =>
    intro ms j h
    rw [als_fill_cons]
    cases hw : well_formed_entry e with
    | none =>
      have hwf : well_formed_entries (e :: es) = well_formed_entries es := by
        simp [well_formed_entries, List.filterMap_cons, hw]
      rw [hwf] at h ⊢
      exact ih ms j h
    | some m =>
      have hwf : well_formed_entries (e :: es) = m :: well_formed_entries es := by
        simp [well_formed_entries, List.filterMap_cons, hw]
      rw [hwf] at h ⊢
      simp only [List.length_cons] at h ⊢
      have hj : j < ms.length := by omega
      rw [ih (ms.set j m) (j + 1) (by simp; omega)]
      have e1 : (ms.set j m).take (j + 1) = ms.take j ++ [m] := by
        rw [List.set_eq_take_append_cons_drop, if_pos hj]
        rw [List.take_append_eq_append_take]
        simp [List.take_take, Nat.min_eq_right (Nat.le_of_lt hj), hj.le]
      have e2 : (ms.set j m).drop (j + 1 + (well_formed_entries es).length) =
          ms.drop (j + ((well_formed_entries es).length + 1)) := by
        rw [List.drop_set_of_lt _ _ (by omega)]
        congr 1
        omega
      rw [e1, e2]
      simp

theorem kmalloc_block_length (fresh : Nat → als_mapping) (count : Nat) :
    (kmalloc_block fresh count).length = count := by
  simp [kmalloc_block]

theorem well_formed_entries_length_le (es : List acpi_object) :
    (well_formed_entries es).length ≤ es.length :=
  List.length_filterMap_le _ _

/-- What `acpi_als_get_mappings` builds from a non-empty `_ALR` package when the
allocation succeeds: `count` is the number of all raw elements, and the block
holds the well-formed entries in their order, followed by cells the loop never
wrote. -/
theorem acpi_als_get_mappings_built (als : acpi_als) (es : List acpi_object)
    (hne : es ≠ []) (fresh : Nat → als_mapping) :
    acpi_als_get_mappings als (acpi_eval.success (some (acpi_object.package es)))
        (some fresh) =
      (0, { als with
              count := (es.length : Int),
              mappings := some (well_formed_entries es ++
                (kmalloc_block fresh es.length).drop (well_formed_entries es).length) }) := by
  have hlen : ¬ ((es.length : Int) = 0) := by
    intro h
    exact hne (List.length_eq_zero.mp (by omega))
  have hfill := als_fill_eq es (kmalloc_block fresh es.length) 0
    (by rw [kmalloc_block_length]; simpa using well_formed_entries_length_le es)
  simp only [acpi_als_get_mappings, hlen, if_false, hfill]
  simp

/-- C5 (code at the failing input): from the `_ALR` package
`{ {0, 10}, 7 }`, which has one well-formed entry, `update_mappings` succeeds
and gives the class device `count = 2` and a block of two cells, the entry
`(illuminance 10, adjustment 0)` followed by a cell that was never written;
from the package `{ 7 }`, which has no well-formed entry, it gives `count = 1`
and a block of one cell that was never written. -/
theorem build_counts_raw_elements (sys : als_device) (als : acpi_als)
    (fresh : Nat → als_mapping) :
    well_formed_entries raw_mixed = [⟨10, 0⟩] ∧
    (update_mappings sys als (acpi_eval.success (some (acpi_object.package raw_mixed)))
        (some fresh)).1 = 0 ∧
    (update_mappings sys als (acpi_eval.success (some (acpi_object.package raw_mixed)))
        (some fresh)).2.1 = { count := 2, mappings := some [⟨10, 0⟩, fresh 1] } ∧
    well_formed_entries raw_malformed = [] ∧
    (update_mappings sys als (acpi_eval.success (some (acpi_object.package raw_malformed)))
        (some fresh)).1 = 0 ∧
    (update_mappings sys als (acpi_eval.success (some (acpi_object.package raw_malformed)))
        (some fresh)).2.1 = { count := 1, mappings := some [fresh 0] } := by
  refine ⟨rfl, rfl, rfl, rfl, rfl, rfl⟩

/-! ## Reading the illuminance -/

/-- C6 (as stated) fails: after a failing `_ALI` evaluation on a sensor whose
cached illuminance was `200`, the call returns `-ENODEV` and the cached value
is `0`, which is not negative and which the attribute code treats as the
valid reading zero. -/
theorem failed_read_caches_zero :
    (acpi_als_get_illuminance stale_sensor none).1 = -ENODEV ∧
    (acpi_als_get_illuminance stale_sensor none).2.illuminance = 0 ∧
    ¬ ((acpi_als_get_illuminance stale_sensor none).2.illuminance < 0 ∧
       (acpi_als_get_illuminance stale_sensor none).2.illuminance ≠ -1) ∧
    illuminance_invalid (acpi_als_get_illuminance stale_sensor none).2.illuminance = false := by
  decide

/-- C6 (amended): when the backend illuminance query fails,
`acpi_als_get_illuminance` and the `get_illuminance` callback return the error
`-ENODEV`, the callback writes no value for the caller, and the cached
illuminance is set to `ALS_INVALID_VALUE_LOW`, which is `0`: a value the
attribute code classifies as valid (the reading zero), so the cached value is
not distinguishable from a valid reading of `0`; the other fields of the
sensor are unchanged. -/
theorem failed_read_caches_invalid_low (als : acpi_als) :
    (acpi_als_get_illuminance als none).1 = -ENODEV ∧
    (acpi_als_get_illuminance als none).2 = { als with illuminance := ALS_INVALID_VALUE_LOW } ∧
    ALS_INVALID_VALUE_LOW = 0 ∧
    (get_illuminance als none).1 = -ENODEV ∧
    (get_illuminance als none).2.1 = none ∧
    (get_illuminance als none).2.2.illuminance = 0 ∧
    illuminance_invalid (get_illuminance als none).2.2.illuminance = false ∧
    illuminance_show (0, some (get_illuminance als none).2.2.illuminance) = Except.ok "0\n" := by
  refine ⟨rfl, rfl, rfl, rfl, rfl, rfl, rfl, rfl⟩

/-! ## A device without a table -/

/-- C8: for every illuminance, the lookup on a device without a table returns
`-EINVAL` and no adjustment: on every device whose `mappings` is `NULL`, in
particular on a class device registered without an `update_mappings`
operation, and on a class device refreshed by `update_mappings` from an `_ALR`
package of zero entries (the refresh itself succeeds). -/
theorem empty_table_no_mapping (x : Int) (count : Int) (sys : als_device) (als : acpi_als)
    (kmalloc : Option (Nat → als_mapping)) :
    als_get_adjustment { count := count, mappings := none } x = adj_result.einval ∧
    (∃ d, (als_device_register true true true none als true 0).1 = Except.ok d ∧
      als_get_adjustment d x = adj_result.einval) ∧
    (update_mappings sys als (acpi_eval.success (some (acpi_object.package []))) kmalloc).1 = 0 ∧
    (update_mappings sys als (acpi_eval.success (some (acpi_object.package [])))
      kmalloc).2.1 = { count := 0, mappings := none } ∧
    als_get_adjustment
      (update_mappings sys als (acpi_eval.success (some (acpi_object.package [])))
        kmalloc).2.1 x = adj_result.einval := by
  refine ⟨rfl, ⟨_, rfl, rfl⟩, rfl, rfl, rfl⟩

/-! ## Registration capacity -/

end ALS
